import Mathlib

/-!
Verification of the pg-data-synthesizer repository.

This file gives a shallow embedding of the synthesis core
(src/data_generator.py, src/main.py) and of the referential-integrity
metric of src/comprehensive_validator.py, and proves or refutes the
frozen claims about them.

Modelling conventions:
* Python dicts become association lists with insertion-order-preserving
  overwrite (`dictInsert`) and first-match lookup (`dictGet?`), matching
  Python dict semantics for unique keys.
* The Faker library is external to the repository.  Each Faker call is
  modelled as consuming exactly one draw from a deterministic stream of
  natural numbers (the seeded RNG).  Generators whose concrete text output
  is irrelevant to every claim (street addresses, words, dates, floats)
  produce an opaque tagged string keyed by the draw; `random_int` and
  `random_element` and `boolean` are modelled arithmetically, since the
  claims do depend on their ranges and membership behaviour.
* SQL values become the `Value` type (int / string / bool / null).
-/

namespace PgSynth

/-- SQL cell values appearing in synthetic records. -/
inductive Value where
  | int : Int → Value
  | str : String → Value
  | bool : Bool → Value
  | null : Value
deriving DecidableEq

/-- Deterministic random source: a stream of naturals plus a cursor.
A fixed seed in the Python program fixes the whole stream. -/
structure RNG where
  stream : Nat → Nat
  idx : Nat

def RNG.draw (g : RNG) : Nat := g.stream g.idx

def RNG.advance (g : RNG) : RNG := ⟨g.stream, g.idx + 1⟩

/-- faker.random_int(min=lo, max=hi): uniform integer in [lo, hi], inclusive. -/
def fakerRandomInt (lo hi : Int) (g : RNG) : Int × RNG :=
  (lo + (g.draw : Int) % (hi - lo + 1), g.advance)

/-- Wrapper returning a `Value`. -/
def fakerRandomIntV (lo hi : Int) (g : RNG) : Value × RNG :=
  (Value.int (fakerRandomInt lo hi g).1, (fakerRandomInt lo hi g).2)

/-- faker.random_element(xs): uniform element of a nonempty list
(the Python code only calls it on nonempty lists). -/
def fakerRandomElement (xs : List Value) (g : RNG) : Value × RNG :=
  (xs.getD (g.draw % xs.length) Value.null, g.advance)

/-- faker.boolean(chance_of_getting_true=c): true with probability c/100. -/
def fakerBoolean (chance : Nat) (g : RNG) : Bool × RNG :=
  (decide (g.draw % 100 < chance), g.advance)

/-- Opaque text-producing Faker generator (email, word, city, ...):
the concrete text is produced by the external Faker library, so it is
modelled as a tagged string determined by the generator and the draw. -/
def fakerString (tag : String) (g : RNG) : Value × RNG :=
  (Value.str (tag ++ "#" ++ toString g.draw), g.advance)

/-- Python dict lookup (keys are unique, first match). -/
def dictGet? {α : Type} : List (String × α) → String → Option α
  | [], _ => none
  | (k, v) :: rest, key => if k = key then some v else dictGet? rest key

/-- Python dict assignment: overwrite in place, or append a new key. -/
def dictInsert {α : Type} : List (String × α) → String → α → List (String × α)
  | [], key, v => [(key, v)]
  | (k, w) :: rest, key, v =>
    if k = key then (key, v) :: rest else (k, w) :: dictInsert rest key v

/-- Substring test helper: does the second list start with the first? -/
def leadsWith : List Char → List Char → Bool
  | [], _ => true
  | _ :: _, [] => false
  | a :: as, b :: bs => a == b && leadsWith as bs

/-- Substring test helper: does the needle occur anywhere in the haystack? -/
def hasSubAux (needle : List Char) : List Char → Bool
  | [] => leadsWith needle []
  | b :: bs => leadsWith needle (b :: bs) || hasSubAux needle bs

/-- Python `needle in hay` on strings. -/
def strContains (hay needle : String) : Bool :=
  hasSubAux needle.data hay.data

/-- Python str.lower(), written over the character list so that it
evaluates inside the kernel. -/
def strLower (s : String) : String :=
  ⟨s.data.map Char.toLower⟩

/-- SQLAlchemy column metadata as used by the generator:
name, stringified SQL type, nullable flag. -/
structure Column where
  name : String
  type : String
  nullable : Bool
deriving DecidableEq

/-- SQLAlchemy foreign-key constraint record. -/
structure FKey where
  constrained_columns : List String
  referred_table : String
  referred_columns : List String
deriving DecidableEq

/-- Per-table schema metadata dict (columns / primary_keys / foreign_keys). -/
structure TableMeta where
  columns : List Column
  primary_keys : List String
  foreign_keys : List FKey
deriving DecidableEq

/-- schema_metadata: table name -> metadata. -/
abbrev Schema := List (String × TableMeta)

/-- One synthetic record: column name -> value (a Python dict). -/
abbrev Record := List (String × Value)

/-- id_registry: table name -> list of registered primary-key values. -/
abbrev Registry := List (String × List Value)

/-- column_type.split('(')[1].split(')')[0]: text after the first '('
up to the next ')' (or to the end).  Feeding it to toNat? models
Python's int() with its try/except fallback. -/
def parenPayload (s : String) : String :=
  ⟨(s.data.dropWhile (fun c => c ≠ '(')).drop 1 |>.takeWhile (fun c => c ≠ ')')⟩

/-- Embeds the part of DataGenerator._generate_value_for_column after the
nullable roll: dispatch on the SQL type string and keyword matches on the
lowercased column name (src/data_generator.py lines 54-131). -/
def genValueCore (colName colType : String) (g : RNG) : Value × RNG :=
  let cl := strLower colName
  if strContains colType "VARCHAR" || strContains colType "TEXT"
      || strContains colType "CHARACTER VARYING" then
    if strContains cl "email" then fakerString "email" g
    else if strContains cl "first_name" then fakerString "first_name" g
    else if strContains cl "last_name" then fakerString "last_name" g
    else if cl = "address" then fakerString "street_address" g
    else if strContains cl "address2" then
      let (b, g1) := fakerBoolean 30 g
      if b then fakerString "secondary_address" g1 else (Value.null, g1)
    else if strContains cl "district" then fakerString "city" g
    else if strContains cl "phone" then fakerString "phone_number" g
    else if strContains cl "postal" || strContains cl "zip" then fakerString "postcode" g
    else if strContains cl "city" then fakerString "city" g
    else if strContains cl "country" then fakerString "country" g
    else if strContains cl "title" then fakerString "sentence" g
    else if strContains cl "description" then fakerString "text200" g
    else if strContains cl "username" then fakerString "user_name" g
    else if strContains cl "password" then fakerString "password" g
    else if strContains colType "(" then
      match (parenPayload colType).toNat? with
      | some _ => fakerString "text" g
      | none => fakerString "word" g
    else fakerString "word" g
  else if strContains colType "INTEGER" || strContains colType "SMALLINT" then
    if strContains cl "year" then fakerString "year" g
    else if strContains cl "rating" then fakerRandomIntV 1 5 g
    else if strContains cl "duration" then fakerRandomIntV 1 7 g
    else if strContains cl "length" then fakerRandomIntV 60 180 g
    else if strContains cl "active" then
      let (b, g1) := fakerBoolean 90 g
      (if b then Value.int 1 else Value.int 0, g1)
    else fakerRandomIntV 1 100 g
  else if strContains colType "NUMERIC" || strContains colType "DECIMAL" then
    if strContains cl "amount" || strContains cl "rate" || strContains cl "cost" then
      fakerString "pyfloat_bounded" g
    else fakerString "pyfloat" g
  else if strContains colType "BOOLEAN" then
    let (b, g1) := fakerBoolean 80 g
    (Value.bool b, g1)
  else if strContains colType "DATE" && !strContains colType "TIME" then
    fakerString "date" g
  else if strContains colType "TIMESTAMP" || strContains colType "DATETIME" then
    fakerString "datetime" g
  else fakerString "word" g

/-- Embeds DataGenerator._generate_value_for_column
(src/data_generator.py lines 37-131): a 10% null roll for nullable
columns, then the type/keyword dispatch. -/
def genValueForColumn (colName colType : String) (isNullable : Bool) (g : RNG) :
    Value × RNG :=
  if isNullable then
    let (b, g1) := fakerBoolean 10 g
    if b then (Value.null, g1) else genValueCore colName colType g1
  else genValueCore colName colType g

/-- First foreign-key constraint whose constrained_columns contain the
column name (the `for fk in ...: if col_name in ...: break` loop of
src/data_generator.py lines 159-170). -/
def firstMatchingFK (fks : List FKey) (c : String) : Option FKey :=
  fks.find? (fun fk => decide (c ∈ fk.constrained_columns))

/-- Embeds the column loop of DataGenerator._generate_record
(src/data_generator.py lines 147-176): primary-key columns get the record
id; foreign-key columns are sampled from the registry with a 1..10
fallback when the referenced table has no registered values; other columns
go through the value dispatcher. -/
def genRecordCols (pks : List String) (fks : List FKey) (recordId : Int)
    (registry : Registry) : List Column → Record → RNG → Record × RNG
  | [], rec, g => (rec, g)
  | col :: rest, rec, g =>
    if col.name ∈ pks then
      genRecordCols pks fks recordId registry rest
        (dictInsert rec col.name (Value.int recordId)) g
    else
      match firstMatchingFK fks col.name with
      | some fk =>
        match dictGet? registry fk.referred_table with
        | some l =>
          if l.isEmpty then
            let (v, g1) := fakerRandomIntV 1 10 g
            genRecordCols pks fks recordId registry rest (dictInsert rec col.name v) g1
          else
            let (v, g1) := fakerRandomElement l g
            genRecordCols pks fks recordId registry rest (dictInsert rec col.name v) g1
        | none =>
          let (v, g1) := fakerRandomIntV 1 10 g
          genRecordCols pks fks recordId registry rest (dictInsert rec col.name v) g1
      | none =>
        let (v, g1) := genValueForColumn col.name col.type col.nullable g
        genRecordCols pks fks recordId registry rest (dictInsert rec col.name v) g1

/-- Embeds DataGenerator._generate_record (src/data_generator.py lines
133-176).  The Python method indexes self.schema_metadata[table_name];
all call sites (generate_data) have already checked membership, so the
KeyError path is unreachable and modelled as an empty record. -/
def generateRecord (schema : Schema) (tableName : String) (recordId : Int)
    (registry : Registry) (g : RNG) : Record × RNG :=
  match dictGet? schema tableName with
  | none => ([], g)
  | some meta =>
    genRecordCols meta.primary_keys meta.foreign_keys recordId registry meta.columns [] g

/-- State threaded through row generation: rows so far, registry, RNG. -/
abbrev RowsState := List Record × Registry × RNG

/-- Embeds the row loop of DataGenerator.generate_data
(src/data_generator.py lines 212-218): for i in range(start, start+cnt),
generate a record, append it, and register record[pk_column] (when
present) before the next row. -/
def genRows (schema : Schema) (tableName pkColumn : String) :
    Nat → Nat → RowsState → RowsState
  | _, 0, st => st
  | start, cnt + 1, (rows, registry, g) =>
    let (rec, g1) := generateRecord schema tableName (Int.ofNat start) registry g
    let registry1 :=
      match dictGet? rec pkColumn with
      | some v =>
        dictInsert registry tableName (((dictGet? registry tableName).getD []) ++ [v])
      | none => registry
    genRows schema tableName pkColumn (start + 1) cnt (rows ++ [rec], registry1, g1)

/-- Mutable generator state: id_registry, synthetic_data, RNG. -/
structure GenState where
  id_registry : Registry
  synthetic_data : List (String × List Record)
  rng : RNG

/-- Embeds one iteration of the table loop of DataGenerator.generate_data
(src/data_generator.py lines 194-221): skip tables without metadata or
without a primary key; initialise the registry entry; run the row loop;
store the table's rows. -/
def processTable (schema : Schema) (recordsPerTable : Nat) (st : GenState)
    (tableName : String) : GenState :=
  match dictGet? schema tableName with
  | none => st
  | some meta =>
    match meta.primary_keys with
    | [] => st
    | pkColumn :: _ =>
      let registry0 :=
        if (dictGet? st.id_registry tableName).isSome then st.id_registry
        else dictInsert st.id_registry tableName []
      let res := genRows schema tableName pkColumn 1 recordsPerTable ([], registry0, st.rng)
      ⟨res.2.1, dictInsert st.synthetic_data tableName res.1, res.2.2⟩

/-- The hard-coded priority list of
DataGenerator._order_tables_by_dependencies (src/data_generator.py
line 238). -/
def priorityOrder : List String := ["address", "customer", "film", "rental"]

/-- Embeds DataGenerator._order_tables_by_dependencies
(src/data_generator.py lines 225-250): priority tables present in the
input first, then the remaining input tables in input order, skipping
tables already placed. -/
def orderTablesByDependencies (tables : List String) : List String :=
  let ordered :=
    priorityOrder.foldl (fun acc t => if t ∈ tables then acc ++ [t] else acc) []
  tables.foldl (fun acc t => if t ∈ acc then acc else acc ++ [t]) ordered

/-- Embeds DataGenerator.generate_data (src/data_generator.py lines
178-223) for a freshly constructed DataGenerator (empty registry and
dataset, as set up in __init__). -/
def generateData (schema : Schema) (recordsPerTable : Nat) (tables : List String)
    (g : RNG) : GenState :=
  (orderTablesByDependencies tables).foldl (processTable schema recordsPerTable)
    ⟨[], [], g⟩

/-- Primary-key values generated for a table in the synthetic dataset:
the values of the given primary-key column over that table's rows. -/
def pkColumnValues (st : GenState) (tableName pkColumn : String) : List Value :=
  ((dictGet? st.synthetic_data tableName).getD []).filterMap
    (fun r => dictGet? r pkColumn)

/-- The registry contents 1, 2, ..., n issued for a freshly generated
table with n rows. -/
def pkList (n : Nat) : List Value :=
  (List.range' 1 n).map (fun k => Value.int (Int.ofNat k))

/-- main.py models the schema inspector by a foreign-key map per table;
calculate_foreign_key_count (src/main.py lines 32-46) is its size. -/
def calculateForeignKeyCount (fkMap : String → List (String × String))
    (tableName : String) : Nat :=
  (fkMap tableName).length

/-- Python string comparison: lexicographic on Unicode code points. -/
def charsLe : List Char → List Char → Bool
  | [], _ => true
  | _ :: _, [] => false
  | a :: as, b :: bs =>
    if a.toNat < b.toNat then true
    else if a.toNat = b.toNat then charsLe as bs
    else false

/-- Python `a <= b` on strings. -/
def strLe (a b : String) : Bool := charsLe a.data b.data

/-- The comparison used by `sorted(all_tables, key=lambda t: (fk_count(t), t))`
in src/main.py line 51: Python tuple order on (count, name). -/
def mainSortLE (fkMap : String → List (String × String)) (a b : String) : Prop :=
  calculateForeignKeyCount fkMap a < calculateForeignKeyCount fkMap b ∨
    (calculateForeignKeyCount fkMap a = calculateForeignKeyCount fkMap b ∧
      strLe a b = true)

instance (fkMap : String → List (String × String)) :
    DecidableRel (mainSortLE fkMap) := by
  intro a b
  unfold mainSortLE
  infer_instance

/-- Stable insertion into a sorted list (used to model Python's stable
`sorted`). -/
def pyInsert {α : Type} (le : α → α → Bool) (x : α) : List α → List α
  | [] => [x]
  | y :: ys => if le x y then x :: y :: ys else y :: pyInsert le x ys

/-- Python's `sorted`: a stable comparison sort. -/
def pySorted {α : Type} (le : α → α → Bool) : List α → List α
  | [] => []
  | x :: xs => pyInsert le x (pySorted le xs)

/-- Embeds `sorted_tables` of src/main.py line 51. -/
def mainSortedTables (fkMap : String → List (String × String))
    (allTables : List String) : List String :=
  pySorted (fun a b => decide (mainSortLE fkMap a b)) allTables

/-- The source-database inspector as seen by the comprehensive validator:
schema-declared primary keys and foreign keys per table. -/
structure Inspector where
  pk_constraint : String → List String
  foreign_keys : String → List FKey

/-- The synthetic dataset as loaded from synthetic_foundation.json:
table name -> rows. -/
abbrev SynthData := List (String × List Record)

/-- Values of one column over the rows of a table, as a pandas column.
Rows missing the key contribute NaN in pandas; NaN compares unequal to
every present value, so they are dropped here (membership-equivalent). -/
def columnValues (rows : List Record) (c : String) : List Value :=
  rows.filterMap (fun r => dictGet? r c)

/-- Embeds the structured_pk_map construction of comprehensive_validation
(src/comprehensive_validator.py lines 128-141): for each nonempty table,
for each schema-declared primary-key column present in the synthetic
rows, the set of its synthetic values, keyed by lowercased names. -/
def structuredPkMap (insp : Inspector) (synth : SynthData) :
    List (String × List (String × List Value)) :=
  synth.foldl
    (fun m tr =>
      if tr.2.isEmpty then m
      else
        dictInsert m (strLower tr.1)
          ((insp.pk_constraint tr.1).foldl
            (fun inner pk =>
              if tr.2.any (fun r => (dictGet? r pk).isSome) then
                dictInsert inner (strLower pk) (columnValues tr.2 pk)
              else inner)
            []))
    []

/-- referred_cols[i] if i < len(referred_cols) else referred_cols[0]
(src/comprehensive_validator.py line 211). -/
def referredPkCol (fk : FKey) (i : Nat) : String :=
  if i < fk.referred_columns.length then fk.referred_columns.getD i ""
  else fk.referred_columns.getD 0 ""

/-- Parent primary-key set looked up for one constrained column
(src/comprehensive_validator.py line 212). -/
def parentPks (pkMap : List (String × List (String × List Value))) (fk : FKey)
    (i : Nat) : List Value :=
  (dictGet? ((dictGet? pkMap (strLower fk.referred_table)).getD []) (strLower (referredPkCol fk i))).getD []

/-- Orphans contributed by one row under one foreign-key constraint:
the enumerate loop of src/comprehensive_validator.py lines 205-215. -/
def countOrphansGo (pkMap : List (String × List (String × List Value)))
    (row : Record) (fk : FKey) : Nat → List String → Nat
  | _, [] => 0
  | i, fkCol :: rest =>
    (match dictGet? row fkCol with
     | none => 0
     | some v => if v ∈ parentPks pkMap fk i then 0 else 1) +
      countOrphansGo pkMap row fk (i + 1) rest

/-- Embeds the orphan_count accumulation of metric 6
(src/comprehensive_validator.py lines 191-215). -/
def orphanCount (insp : Inspector) (synth : SynthData) : Nat :=
  synth.foldl
    (fun acc tr =>
      tr.2.foldl
        (fun acc row =>
          (insp.foreign_keys tr.1).foldl
            (fun acc fk =>
              acc + countOrphansGo (structuredPkMap insp synth) row fk 0
                fk.constrained_columns)
            acc)
        acc)
    0

/-- Embeds total_fk_checks of metric 6 (src/comprehensive_validator.py
lines 192-207): every constrained column present in a row counts. -/
def countChecksGo (row : Record) : List String → Nat
  | [] => 0
  | fkCol :: rest =>
    (if (dictGet? row fkCol).isSome then 1 else 0) + countChecksGo row rest

/-- Embeds the total_fk_checks accumulation of metric 6. -/
def totalFkChecks (insp : Inspector) (synth : SynthData) : Nat :=
  synth.foldl
    (fun acc tr =>
      tr.2.foldl
        (fun acc row =>
          (insp.foreign_keys tr.1).foldl
            (fun acc fk => acc + countChecksGo row fk.constrained_columns)
            acc)
        acc)
    0

/-- integrity_pass = orphan_count == 0 (src/comprehensive_validator.py
line 217). -/
def integrityPass (insp : Inspector) (synth : SynthData) : Bool :=
  orphanCount insp synth == 0

/-- The printed verdict of metric 6 (src/comprehensive_validator.py
line 220). -/
def integrityVerdict (insp : Inspector) (synth : SynthData) : String :=
  if integrityPass insp synth then "PASS - All foreign keys valid"
  else "FAIL - " ++ toString (orphanCount insp synth) ++ " orphaned references"

/-- Specification-side enumeration of the individual foreign-key checks
performed by metric 6: each element pairs a checked value with the parent
primary-key set it is looked up in. -/
def fkChecksGo (pkMap : List (String × List (String × List Value)))
    (row : Record) (fk : FKey) : Nat → List String → List (Value × List Value)
  | _, [] => []
  | i, fkCol :: rest =>
    (match dictGet? row fkCol with
     | none => []
     | some v => [(v, parentPks pkMap fk i)]) ++
      fkChecksGo pkMap row fk (i + 1) rest

/-- Specification-side list of all foreign-key checks of a validation run. -/
def fkChecks (insp : Inspector) (synth : SynthData) : List (Value × List Value) :=
  (synth.map (fun tr =>
    (tr.2.map (fun row =>
      ((insp.foreign_keys tr.1).map (fun fk =>
        fkChecksGo (structuredPkMap insp synth) row fk 0 fk.constrained_columns)).flatten)).flatten)).flatten

/-- A value written by the 1..10 fallback of the foreign-key branch. -/
def isFallbackInt (v : Value) : Prop :=
  ∃ n : Int, v = Value.int n ∧ 1 ≤ n ∧ n ≤ 10

/-- What the foreign-key branch of _generate_record can store for a
column constrained by `fk`, given the registry at generation time:
a registered value of the referred table when its registry entry is
nonempty, a 1..10 fallback integer otherwise. -/
def fkAdmissible (registry : Registry) (fk : FKey) (v : Value) : Prop :=
  match dictGet? registry fk.referred_table with
  | some l => if l.isEmpty then isFallbackInt v else v ∈ l
  | none => isFallbackInt v

/-- Registry values start, ..., start+cnt-1 issued by the row loop. -/
def pkListFrom (start cnt : Nat) : List Value :=
  (List.range' start cnt).map (fun k => Value.int (Int.ofNat k))

/-- C6 (counterexample input): a table whose composite primary key
consists of two columns, each of which is also a foreign key to table
"p". -/
def ceSchemaC6 : Schema :=
  [("t", ⟨[⟨"a", "INTEGER", false⟩, ⟨"b", "INTEGER", false⟩],
    ["a", "b"],
    [⟨["a"], "p", ["pid"]⟩, ⟨["b"], "p", ["pid"]⟩]⟩)]

/-- C7 (counterexample input): a table with an integer primary key and a
text email column. -/
def ceSchemaC7 : Schema :=
  [("u", ⟨[⟨"id", "INTEGER", false⟩, ⟨"email", "VARCHAR(50)", false⟩],
    ["id"], []⟩)]

/-- C7 (counterexample input): a random stream whose first two draws
collide and whose later draws differ. -/
def ceStreamC7 : Nat → Nat := fun n => if n < 2 then 0 else 7

/-- C1 (counterexample input): a table with a foreign key to a table "p"
that is never generated. -/
def ceSchemaC1 : Schema :=
  [("t", ⟨[⟨"tid", "INTEGER", false⟩, ⟨"cid", "INTEGER", false⟩], ["tid"],
    [⟨["cid"], "p", ["pid"]⟩]⟩)]

/-- C1 (witness input): the customer/rental scenario of the spec. -/
def wSchemaC1 : Schema :=
  [("customer", ⟨[⟨"customer_id", "INTEGER", false⟩], ["customer_id"], []⟩),
   ("rental", ⟨[⟨"rental_id", "INTEGER", false⟩, ⟨"customer_id", "INTEGER", false⟩],
     ["rental_id"], [⟨["customer_id"], "customer", ["customer_id"]⟩]⟩)]

theorem dictGet?_insert_self {α : Type} (d : List (String × α)) (k : String) (v : α) :
    dictGet? (dictInsert d k v) k = some v := by
  induction d with
  | nil => simp [dictInsert, dictGet?]
  | cons hd tl ih =>
    obtain ⟨k1, w⟩ := hd
    by_cases h : k1 = k
    · simp [dictInsert, h, dictGet?]
    · simp [dictInsert, h, dictGet?, ih]

theorem dictGet?_insert_ne {α : Type} (d : List (String × α)) (k q : String) (v : α)
    (h : q ≠ k) : dictGet? (dictInsert d k v) q = dictGet? d q := by
  have hk : k ≠ q := fun e => h e.symm
  induction d with
  | nil => simp [dictInsert, dictGet?, hk]
  | cons hd tl ih =>
    obtain ⟨k1, w⟩ := hd
    by_cases h1 : k1 = k
    · subst h1
      simp [dictInsert, dictGet?, hk]
    · simp [dictInsert, h1, dictGet?, ih]

theorem dictGet?_insert_isSome {α : Type} (d : List (String × α)) (k q : String)
    (v : α) (h : (dictGet? d q).isSome) :
    (dictGet? (dictInsert d k v) q).isSome := by
  by_cases hq : q = k
  · subst hq
    simp [dictGet?_insert_self]
  · rwa [dictGet?_insert_ne d k q v hq]

/-- The two cases of fkAdmissible, as rewriting equivalences. -/
theorem fkAdmissible_none (registry : Registry) (fk : FKey) (v : Value)
    (h : dictGet? registry fk.referred_table = none) :
    fkAdmissible registry fk v ↔ isFallbackInt v := by
  unfold fkAdmissible
  rw [h]

theorem fkAdmissible_some (registry : Registry) (fk : FKey) (v : Value)
    (l : List Value) (h : dictGet? registry fk.referred_table = some l) :
    fkAdmissible registry fk v ↔
      if l.isEmpty then isFallbackInt v else v ∈ l := by
  unfold fkAdmissible
  rw [h]

theorem fakerRandomIntV_fallback (g : RNG) : isFallbackInt (fakerRandomIntV 1 10 g).1 := by
  refine ⟨1 + (g.draw : Int) % 10, ?_, ?_, ?_⟩
  · simp [fakerRandomIntV, fakerRandomInt]
  · have h := Int.emod_nonneg (g.draw : Int) (by norm_num : (10 : Int) ≠ 0)
    omega
  · have h := Int.emod_lt_of_pos (g.draw : Int) (by norm_num : (0 : Int) < 10)
    omega

theorem fakerRandomElement_mem (l : List Value) (g : RNG) (h : l ≠ []) :
    (fakerRandomElement l g).1 ∈ l := by
  have hlen : 0 < l.length := List.length_pos.mpr h
  have hlt : g.draw % l.length < l.length := Nat.mod_lt _ hlen
  simp only [fakerRandomElement]
  rw [List.getD_eq_getElem l Value.null hlt]
  exact List.getElem_mem hlt

/-- Processing one column rewrites to processing the rest with one more
record entry keyed by that column's name. -/
theorem genRecordCols_cons (pks : List String) (fks : List FKey) (recordId : Int)
    (registry : Registry) (col : Column) (rest : List Column) (rec : Record) (g : RNG) :
    ∃ v g1, genRecordCols pks fks recordId registry (col :: rest) rec g =
      genRecordCols pks fks recordId registry rest (dictInsert rec col.name v) g1 := by
  by_cases hpk : col.name ∈ pks
  · exact ⟨Value.int recordId, g, by simp [genRecordCols, hpk]⟩
  · rcases hfk : firstMatchingFK fks col.name with _ | fk
    · exact ⟨(genValueForColumn col.name col.type col.nullable g).1,
        (genValueForColumn col.name col.type col.nullable g).2, by
          simp [genRecordCols, hpk, hfk]⟩
    · rcases hreg : dictGet? registry fk.referred_table with _ | l
      · exact ⟨(fakerRandomIntV 1 10 g).1, (fakerRandomIntV 1 10 g).2, by
          simp [genRecordCols, hpk, hfk, hreg]⟩
      · by_cases hemp : l.isEmpty
        · exact ⟨(fakerRandomIntV 1 10 g).1, (fakerRandomIntV 1 10 g).2, by
            simp [genRecordCols, hpk, hfk, hreg, hemp]⟩
        · exact ⟨(fakerRandomElement l g).1, (fakerRandomElement l g).2, by
            simp [genRecordCols, hpk, hfk, hreg, hemp]⟩

theorem genRecordCols_lookup_of_not_named (pks : List String) (fks : List FKey)
    (recordId : Int) (registry : Registry) (c : String) :
    ∀ (cols : List Column) (rec : Record) (g : RNG),
      (cols.any fun col => decide (col.name = c)) = false →
      dictGet? (genRecordCols pks fks recordId registry cols rec g).1 c =
        dictGet? rec c := by
  intro cols
  induction cols with
  | nil => intro rec g _; rfl
  | cons col rest ih =>
    intro rec g hany
    simp only [List.any_cons, Bool.or_eq_false_iff, decide_eq_false_iff_not] at hany
    obtain ⟨v, g1, heq⟩ := genRecordCols_cons pks fks recordId registry col rest rec g
    rw [heq, ih _ _ (by simpa using hany.2),
      dictGet?_insert_ne _ _ _ _ (fun e => hany.1 e.symm)]

theorem genRecordCols_isSome_preserved (pks : List String) (fks : List FKey)
    (recordId : Int) (registry : Registry) (c : String) :
    ∀ (cols : List Column) (rec : Record) (g : RNG),
      (dictGet? rec c).isSome →
      (dictGet? (genRecordCols pks fks recordId registry cols rec g).1 c).isSome := by
  intro cols
  induction cols with
  | nil => intro rec g h; exact h
  | cons col rest ih =>
    intro rec g h
    obtain ⟨v, g1, heq⟩ := genRecordCols_cons pks fks recordId registry col rest rec g
    rw [heq]
    exact ih _ _ (dictGet?_insert_isSome _ _ _ _ h)

theorem genRecordCols_isSome_of_named (pks : List String) (fks : List FKey)
    (recordId : Int) (registry : Registry) (c : String) :
    ∀ (cols : List Column) (rec : Record) (g : RNG),
      (cols.any fun col => decide (col.name = c)) = true →
      (dictGet? (genRecordCols pks fks recordId registry cols rec g).1 c).isSome := by
  intro cols
  induction cols with
  | nil => intro rec g h; simp at h
  | cons col rest ih =>
    intro rec g hany
    obtain ⟨v, g1, heq⟩ := genRecordCols_cons pks fks recordId registry col rest rec g
    rw [heq]
    by_cases hname : col.name = c
    · refine genRecordCols_isSome_preserved pks fks recordId registry c rest _ g1 ?_
      rw [hname, dictGet?_insert_self]
      rfl
    · refine ih _ _ ?_
      simpa [hname] using hany

theorem genRecordCols_pk (pks : List String) (fks : List FKey) (recordId : Int)
    (registry : Registry) (c : String) (hc : c ∈ pks) :
    ∀ (cols : List Column) (rec : Record) (g : RNG),
      dictGet? (genRecordCols pks fks recordId registry cols rec g).1 c =
        if (cols.any fun col => decide (col.name = c)) = true then
          some (Value.int recordId)
        else dictGet? rec c := by
  intro cols
  induction cols with
  | nil => intro rec g; simp [genRecordCols]
  | cons col rest ih =>
    intro rec g
    by_cases hname : col.name = c
    · have hpk : col.name ∈ pks := hname ▸ hc
      have heq : genRecordCols pks fks recordId registry (col :: rest) rec g =
          genRecordCols pks fks recordId registry rest
            (dictInsert rec col.name (Value.int recordId)) g := by
        simp [genRecordCols, hpk]
      rw [heq, ih]
      by_cases hrest : (rest.any fun col => decide (col.name = c)) = true
      · simp [hrest, hname]
      · simp [hrest, hname, dictGet?_insert_self]
    · obtain ⟨v, g1, heq⟩ := genRecordCols_cons pks fks recordId registry col rest rec g
      rw [heq, ih, dictGet?_insert_ne _ _ _ _ (fun e => hname e.symm)]
      simp [hname]

theorem genRecordCols_fk (pks : List String) (fks : List FKey) (recordId : Int)
    (registry : Registry) (c : String) (fk : FKey) (hc : c ∉ pks)
    (hfk : firstMatchingFK fks c = some fk) :
    ∀ (cols : List Column) (rec : Record) (g : RNG),
      (∀ v, dictGet? rec c = some v → fkAdmissible registry fk v) →
      ∀ v, dictGet? (genRecordCols pks fks recordId registry cols rec g).1 c = some v →
        fkAdmissible registry fk v := by
  intro cols
  induction cols with
  | nil => intro rec g hinv v hv; exact hinv v hv
  | cons col rest ih =>
    intro rec g hinv
    by_cases hname : col.name = c
    · subst hname
      have hpk : col.name ∉ pks := hc
      rcases hreg : dictGet? registry fk.referred_table with _ | l
      · have heq : genRecordCols pks fks recordId registry (col :: rest) rec g =
            genRecordCols pks fks recordId registry rest
              (dictInsert rec col.name (fakerRandomIntV 1 10 g).1)
              (fakerRandomIntV 1 10 g).2 := by
          simp [genRecordCols, hpk, hfk, hreg]
        rw [heq]
        refine ih _ _ ?_
        intro v hv
        rw [dictGet?_insert_self] at hv
        cases hv
        simp [fkAdmissible, hreg]
        exact fakerRandomIntV_fallback g
      · by_cases hemp : l.isEmpty
        · have heq : genRecordCols pks fks recordId registry (col :: rest) rec g =
              genRecordCols pks fks recordId registry rest
                (dictInsert rec col.name (fakerRandomIntV 1 10 g).1)
                (fakerRandomIntV 1 10 g).2 := by
            simp [genRecordCols, hpk, hfk, hreg, hemp]
          rw [heq]
          refine ih _ _ ?_
          intro v hv
          rw [dictGet?_insert_self] at hv
          cases hv
          simp [fkAdmissible, hreg, hemp]
          exact fakerRandomIntV_fallback g
        · have heq : genRecordCols pks fks recordId registry (col :: rest) rec g =
              genRecordCols pks fks recordId registry rest
                (dictInsert rec col.name (fakerRandomElement l g).1)
                (fakerRandomElement l g).2 := by
            simp [genRecordCols, hpk, hfk, hreg, hemp]
          rw [heq]
          refine ih _ _ ?_
          intro v hv
          rw [dictGet?_insert_self] at hv
          cases hv
          simp [fkAdmissible, hreg, hemp]
          exact fakerRandomElement_mem l g (by simpa [List.isEmpty_iff] using hemp)
    · obtain ⟨v0, g1, heq⟩ := genRecordCols_cons pks fks recordId registry col rest rec g
      rw [heq]
      refine ih _ _ ?_
      intro v hv
      rw [dictGet?_insert_ne _ _ _ _ (fun e => hname e.symm)] at hv
      exact hinv v hv

theorem generateRecord_pk (schema : Schema) (t : String) (m : TableMeta)
    (recordId : Int) (reg : Registry) (g : RNG) (c : String)
    (hm : dictGet? schema t = some m) (hc : c ∈ m.primary_keys)
    (hany : (m.columns.any fun col => decide (col.name = c)) = true) :
    dictGet? (generateRecord schema t recordId reg g).1 c = some (Value.int recordId) := by
  simp only [generateRecord, hm]
  rw [genRecordCols_pk _ _ _ _ _ hc, if_pos hany]

theorem generateRecord_fk (schema : Schema) (t : String) (m : TableMeta)
    (recordId : Int) (reg : Registry) (g : RNG) (c : String) (fk : FKey)
    (hm : dictGet? schema t = some m) (hc : c ∉ m.primary_keys)
    (hfk : firstMatchingFK m.foreign_keys c = some fk) :
    ∀ v, dictGet? (generateRecord schema t recordId reg g).1 c = some v →
      fkAdmissible reg fk v := by
  simp only [generateRecord, hm]
  exact genRecordCols_fk _ _ _ _ _ _ hc hfk _ _ _ (by intro v hv; cases hv)

theorem generateRecord_fk_some (schema : Schema) (t : String) (m : TableMeta)
    (recordId : Int) (reg : Registry) (g : RNG) (c : String) (fk : FKey)
    (hm : dictGet? schema t = some m) (hc : c ∉ m.primary_keys)
    (hfk : firstMatchingFK m.foreign_keys c = some fk)
    (hany : (m.columns.any fun col => decide (col.name = c)) = true) :
    ∃ v, dictGet? (generateRecord schema t recordId reg g).1 c = some v ∧
      fkAdmissible reg fk v := by
  have hs : (dictGet? (generateRecord schema t recordId reg g).1 c).isSome := by
    simp only [generateRecord, hm]
    exact genRecordCols_isSome_of_named _ _ _ _ _ _ _ _ hany
  rcases hv : dictGet? (generateRecord schema t recordId reg g).1 c with _ | v
  · rw [hv] at hs; cases hs
  · exact ⟨v, rfl, generateRecord_fk schema t m recordId reg g c fk hm hc hfk v hv⟩

theorem pkList_eq_pkListFrom (n : Nat) : pkList n = pkListFrom 1 n := rfl

theorem genRows_reg_other (schema : Schema) (t pk p : String) (hp : p ≠ t) :
    ∀ (cnt start : Nat) (rows : List Record) (reg : Registry) (g : RNG),
      dictGet? (genRows schema t pk start cnt (rows, reg, g)).2.1 p = dictGet? reg p := by
  intro cnt
  induction cnt with
  | zero => intro start rows reg g; rfl
  | succ n ih =>
    intro start rows reg g
    simp only [genRows]
    rcases hpk : dictGet? (generateRecord schema t (Int.ofNat start) reg g).1 pk with _ | v
    · simp only [hpk]
      exact ih _ _ _ _
    · simp only [hpk]
      rw [ih _ _ _ _, dictGet?_insert_ne _ _ _ _ hp]

theorem genRows_main (schema : Schema) (t pk : String) (m : TableMeta)
    (hm : dictGet? schema t = some m) (hc : pk ∈ m.primary_keys)
    (hany : (m.columns.any fun col => decide (col.name = pk)) = true) :
    ∀ (cnt start : Nat) (rows : List Record) (reg : Registry) (g : RNG)
      (acc : List Value), dictGet? reg t = some acc →
      dictGet? (genRows schema t pk start cnt (rows, reg, g)).2.1 t =
          some (acc ++ pkListFrom start cnt) ∧
        (genRows schema t pk start cnt (rows, reg, g)).1.map (fun r => dictGet? r pk) =
          rows.map (fun r => dictGet? r pk) ++
            (List.range' start cnt).map (fun k => some (Value.int (Int.ofNat k))) := by
  intro cnt
  induction cnt with
  | zero =>
    intro start rows reg g acc hacc
    simp [genRows, pkListFrom, hacc]
  | succ n ih =>
    intro start rows reg g acc hacc
    have hrec : dictGet? (generateRecord schema t (Int.ofNat start) reg g).1 pk =
        some (Value.int (Int.ofNat start)) :=
      generateRecord_pk schema t m _ reg g pk hm hc hany
    simp only [genRows, hrec, hacc, Option.getD_some]
    have hacc1 : dictGet? (dictInsert reg t (acc ++ [Value.int (Int.ofNat start)])) t =
        some (acc ++ [Value.int (Int.ofNat start)]) := dictGet?_insert_self _ _ _
    obtain ⟨h1, h2⟩ := ih (start + 1) (rows ++ [(generateRecord schema t (Int.ofNat start) reg g).1])
      (dictInsert reg t (acc ++ [Value.int (Int.ofNat start)]))
      (generateRecord schema t (Int.ofNat start) reg g).2
      (acc ++ [Value.int (Int.ofNat start)]) hacc1
    constructor
    · rw [h1]
      rw [show pkListFrom start (n + 1) =
        Value.int (Int.ofNat start) :: pkListFrom (start + 1) n by
          simp [pkListFrom, List.range'_succ]]
      simp
    · rw [h2, List.map_append, List.range'_succ]
      simp only [List.map_cons, List.map_nil, hrec]
      simp

theorem genRows_fkOk (schema : Schema) (t pk p : String) (m : TableMeta)
    (c : String) (fk : FKey) (l : List Value) (hp : p ≠ t)
    (hm : dictGet? schema t = some m) (hcpks : c ∉ m.primary_keys)
    (hfk : firstMatchingFK m.foreign_keys c = some fk)
    (hrt : fk.referred_table = p) (hl : l ≠ []) :
    ∀ (cnt start : Nat) (rows : List Record) (reg : Registry) (g : RNG),
      dictGet? reg p = some l →
      (∀ r ∈ rows, ∀ v, dictGet? r c = some v → v ∈ l) →
      ∀ r ∈ (genRows schema t pk start cnt (rows, reg, g)).1,
        ∀ v, dictGet? r c = some v → v ∈ l := by
  intro cnt
  induction cnt with
  | zero =>
    intro start rows reg g hreg hinv r hr v hv
    exact hinv r hr v hv
  | succ n ih =>
    intro start rows reg g hreg hinv
    have hrec : ∀ v, dictGet? (generateRecord schema t (Int.ofNat start) reg g).1 c =
        some v → v ∈ l := by
      intro v hv
      have hadm := generateRecord_fk schema t m _ reg g c fk hm hcpks hfk v hv
      rw [fkAdmissible, hrt, hreg] at hadm
      simpa [List.isEmpty_iff, hl] using hadm
    have hinv1 : ∀ r ∈ rows ++ [(generateRecord schema t (Int.ofNat start) reg g).1],
        ∀ v, dictGet? r c = some v → v ∈ l := by
      intro r hr v hv
      rcases List.mem_append.mp hr with h | h
      · exact hinv r h v hv
      · rw [List.mem_singleton.mp h] at hv
        exact hrec v hv
    simp only [genRows]
    rcases hpk : dictGet? (generateRecord schema t (Int.ofNat start) reg g).1 pk with _ | w
    · simp only [hpk]
      exact ih _ _ _ _ hreg hinv1
    · simp only [hpk]
      refine ih _ _ _ _ ?_ hinv1
      rw [dictGet?_insert_ne _ _ _ _ hp]
      exact hreg

theorem processTable_other (schema : Schema) (n : Nat) (st : GenState)
    (t p : String) (hp : p ≠ t) :
    dictGet? (processTable schema n st t).id_registry p = dictGet? st.id_registry p ∧
      dictGet? (processTable schema n st t).synthetic_data p =
        dictGet? st.synthetic_data p := by
  rcases hm : dictGet? schema t with _ | m
  · simp [processTable, hm]
  · rcases hpks : m.primary_keys with _ | ⟨pk, rest⟩
    · simp [processTable, hm, hpks]
    · have hreg0 : dictGet?
          (if (dictGet? st.id_registry t).isSome then st.id_registry
           else dictInsert st.id_registry t []) p = dictGet? st.id_registry p := by
        by_cases hs : (dictGet? st.id_registry t).isSome
        · simp [hs]
        · simp [hs, dictGet?_insert_ne _ _ _ _ hp]
      constructor
      · simp only [processTable, hm, hpks]
        rw [genRows_reg_other schema t pk p hp]
        exact hreg0
      · simp only [processTable, hm, hpks]
        rw [dictGet?_insert_ne _ _ _ _ hp]

theorem filterMap_of_map_eq_map_some {α β : Type} (f : α → Option β) :
    ∀ (l : List α) (vals : List β), l.map f = vals.map some → l.filterMap f = vals := by
  intro l
  induction l with
  | nil =>
    intro vals h
    cases vals with
    | nil => rfl
    | cons v vs => simp at h
  | cons a as ih =>
    intro vals h
    cases vals with
    | nil => simp at h
    | cons v vs =>
      simp only [List.map_cons, List.cons.injEq] at h
      simp [List.filterMap_cons, h.1, ih vs h.2]

theorem processTable_fresh (schema : Schema) (n : Nat) (st : GenState)
    (t : String) (m : TableMeta) (pk : String) (rest : List String)
    (hm : dictGet? schema t = some m) (hpks : m.primary_keys = pk :: rest)
    (hany : (m.columns.any fun col => decide (col.name = pk)) = true)
    (hfresh : dictGet? st.id_registry t = none) :
    dictGet? (processTable schema n st t).id_registry t = some (pkList n) ∧
      ∃ rows, dictGet? (processTable schema n st t).synthetic_data t = some rows ∧
        rows.map (fun r => dictGet? r pk) =
          (List.range' 1 n).map (fun k => some (Value.int (Int.ofNat k))) := by
  have hc : pk ∈ m.primary_keys := by rw [hpks]; exact List.mem_cons_self _ _
  have hfresh1 : (dictGet? st.id_registry t).isSome = false := by simp [hfresh]
  have hreg0 : dictGet? (dictInsert st.id_registry t []) t = some [] :=
    dictGet?_insert_self _ _ _
  obtain ⟨h1, h2⟩ := genRows_main schema t pk m hm hc hany n 1 []
    (dictInsert st.id_registry t []) st.rng [] hreg0
  simp only [processTable, hm, hpks, hfresh1, Bool.false_eq_true, if_false]
  refine ⟨by simpa [pkList_eq_pkListFrom] using h1, ?_⟩
  exact ⟨_, dictGet?_insert_self _ _ _, by simpa using h2⟩

theorem processTable_rows_fkOk (schema : Schema) (n : Nat) (st : GenState)
    (t p c : String) (m : TableMeta) (pk : String) (rest : List String)
    (fk : FKey) (l : List Value)
    (hm : dictGet? schema t = some m) (hpks : m.primary_keys = pk :: rest)
    (hp : p ≠ t) (hregP : dictGet? st.id_registry p = some l) (hl : l ≠ [])
    (hcpks : c ∉ m.primary_keys)
    (hfk : firstMatchingFK m.foreign_keys c = some fk)
    (hrt : fk.referred_table = p) :
    ∃ rows, dictGet? (processTable schema n st t).synthetic_data t = some rows ∧
      ∀ r ∈ rows, ∀ v, dictGet? r c = some v → v ∈ l := by
  have hreg0 : dictGet?
      (if (dictGet? st.id_registry t).isSome then st.id_registry
       else dictInsert st.id_registry t []) p = some l := by
    by_cases hs : (dictGet? st.id_registry t).isSome
    · simp [hs, hregP]
    · simp [hs, dictGet?_insert_ne _ _ _ _ hp, hregP]
  simp only [processTable, hm, hpks]
  refine ⟨_, dictGet?_insert_self _ _ _, ?_⟩
  exact genRows_fkOk schema t pk p m c fk l hp hm hcpks hfk hrt hl n 1 [] _ st.rng
    hreg0 (by intro r hr; cases hr)

theorem foldl_if_mem_sublist (tables : List String) :
    ∀ (pl acc : List String),
      (pl.foldl (fun acc t => if t ∈ tables then acc ++ [t] else acc) acc).Sublist
        (acc ++ pl) := by
  intro pl
  induction pl with
  | nil => intro acc; simp
  | cons t rest ih =>
    intro acc
    simp only [List.foldl_cons]
    by_cases h : t ∈ tables
    · rw [if_pos h]
      have := ih (acc ++ [t])
      simpa using this
    · rw [if_neg h]
      refine (ih acc).trans ?_
      refine List.Sublist.append_left ?_ acc
      exact List.sublist_cons_self t rest

theorem foldl_dedup_nodup :
    ∀ (ts acc : List String), acc.Nodup →
      (ts.foldl (fun acc t => if t ∈ acc then acc else acc ++ [t]) acc).Nodup := by
  intro ts
  induction ts with
  | nil => intro acc h; exact h
  | cons t rest ih =>
    intro acc h
    simp only [List.foldl_cons]
    by_cases hm : t ∈ acc
    · rw [if_pos hm]; exact ih acc h
    · rw [if_neg hm]
      refine ih _ ?_
      simp [List.nodup_append, h, hm]

theorem orderTables_nodup (tables : List String) :
    (orderTablesByDependencies tables).Nodup := by
  refine foldl_dedup_nodup tables _ ?_
  refine List.Nodup.sublist ?_ (by decide : priorityOrder.Nodup)
  simpa using foldl_if_mem_sublist tables priorityOrder []

theorem foldl_processTable_other (schema : Schema) (n : Nat) :
    ∀ (l : List String) (st : GenState) (p : String), p ∉ l →
      dictGet? (l.foldl (processTable schema n) st).id_registry p =
          dictGet? st.id_registry p ∧
        dictGet? (l.foldl (processTable schema n) st).synthetic_data p =
          dictGet? st.synthetic_data p := by
  intro l
  induction l with
  | nil => intro st p _; exact ⟨rfl, rfl⟩
  | cons t rest ih =>
    intro st p hp
    have hpt : p ≠ t := fun e => hp (e ▸ List.mem_cons_self t rest)
    have hprest : p ∉ rest := fun h => hp (List.mem_cons_of_mem t h)
    obtain ⟨h1, h2⟩ := ih (processTable schema n st t) p hprest
    obtain ⟨h3, h4⟩ := processTable_other schema n st t p hpt
    exact ⟨by rw [List.foldl_cons, h1, h3], by rw [List.foldl_cons, h2, h4]⟩

/-- C1 (amended): in a synthesis run, if the referenced table P is
generated strictly before the referencing table T in the resolved order,
P has schema metadata with a primary key whose first column appears among
its columns, and at least one row is generated per table, then every
value of T's foreign-key column c (first matching constraint referring
to P) is a member of the primary-key values generated for P. -/
theorem C1_referential_integrity_of_generated_parent
    (schema : Schema) (n : Nat) (tables : List String) (g : RNG)
    (P T c : String) (l1 l2 l3 : List String) (mP mT : TableMeta)
    (pkP : String) (restP : List String) (pkT : String) (restT : List String)
    (fk : FKey)
    (hord : orderTablesByDependencies tables = l1 ++ P :: (l2 ++ T :: l3))
    (hmP : dictGet? schema P = some mP)
    (hpksP : mP.primary_keys = pkP :: restP)
    (hanyP : (mP.columns.any fun col => decide (col.name = pkP)) = true)
    (hmT : dictGet? schema T = some mT)
    (hpksT : mT.primary_keys = pkT :: restT)
    (hcpks : c ∉ mT.primary_keys)
    (hfk : firstMatchingFK mT.foreign_keys c = some fk)
    (hrt : fk.referred_table = P)
    (hn : 1 ≤ n) :
    ∀ r ∈ (dictGet? (generateData schema n tables g).synthetic_data T).getD [],
      ∀ v, dictGet? r c = some v →
        v ∈ pkColumnValues (generateData schema n tables g) P pkP := by
  have hnd := orderTables_nodup tables
  rw [hord] at hnd
  have hdisj := List.disjoint_of_nodup_append hnd
  have hPl1 : P ∉ l1 := fun h => hdisj h (List.mem_cons_self _ _)
  have hnd2 : (P :: (l2 ++ T :: l3)).Nodup := hnd.of_append_right
  have hPrest : P ∉ l2 ++ T :: l3 := (List.nodup_cons.mp hnd2).1
  have hPl2 : P ∉ l2 := fun h => hPrest (List.mem_append.mpr (Or.inl h))
  have hPT : P ≠ T := fun e =>
    hPrest (List.mem_append.mpr (Or.inr (e ▸ List.mem_cons_self _ _)))
  have hPl3 : P ∉ l3 := fun h =>
    hPrest (List.mem_append.mpr (Or.inr (List.mem_cons_of_mem _ h)))
  have hnd3 : (T :: l3).Nodup := ((List.nodup_cons.mp hnd2).2).of_append_right
  have hTl3 : T ∉ l3 := (List.nodup_cons.mp hnd3).1
  -- Unfold the fold along the decomposition of the generation order.
  have hsplit : generateData schema n tables g =
      l3.foldl (processTable schema n)
        (processTable schema n
          (l2.foldl (processTable schema n)
            (processTable schema n
              (l1.foldl (processTable schema n) ⟨[], [], g⟩) P)) T) := by
    rw [generateData, hord]
    rw [List.foldl_append, List.foldl_cons, List.foldl_append, List.foldl_cons]
  set st1 := l1.foldl (processTable schema n) (⟨[], [], g⟩ : GenState) with hst1
  set st2 := processTable schema n st1 P with hst2
  set st3 := l2.foldl (processTable schema n) st2 with hst3
  set st4 := processTable schema n st3 T with hst4
  set st5 := l3.foldl (processTable schema n) st4 with hst5
  have hfinal : generateData schema n tables g = st5 := hsplit
  -- Registry entry for P is fresh before its own processing.
  have hreg1 : dictGet? st1.id_registry P = none := by
    have := (foldl_processTable_other schema n l1 ⟨[], [], g⟩ P hPl1).1
    rw [hst1, this]
    rfl
  -- Processing P issues 1..n and stores its rows.
  obtain ⟨hreg2, rowsP, hdata2, hmap2⟩ :=
    processTable_fresh schema n st1 P mP pkP restP hmP hpksP hanyP hreg1
  -- Both survive the tables strictly between P and T.
  have hreg3 : dictGet? st3.id_registry P = some (pkList n) := by
    rw [hst3, (foldl_processTable_other schema n l2 st2 P hPl2).1]
    exact hreg2
  have hdata3 : dictGet? st3.synthetic_data P = some rowsP := by
    rw [hst3, (foldl_processTable_other schema n l2 st2 P hPl2).2]
    exact hdata2
  have hpkne : pkList n ≠ [] := by
    have : (pkList n).length = n := by simp [pkList]
    intro h
    rw [h] at this
    simp at this
    omega
  -- Processing T samples only registered values of P for column c.
  obtain ⟨rowsT, hdata4, hok4⟩ :=
    processTable_rows_fkOk schema n st3 T P c mT pkT restT fk (pkList n)
      hmT hpksT hPT hreg3 hpkne hcpks hfk hrt
  -- Both tables' rows survive the remaining tables.
  have hdata4P : dictGet? st4.synthetic_data P = some rowsP := by
    rw [hst4, (processTable_other schema n st3 T P hPT).2]
    exact hdata3
  have hdata5T : dictGet? st5.synthetic_data T = some rowsT := by
    rw [hst5, (foldl_processTable_other schema n l3 st4 T hTl3).2]
    exact hdata4
  have hdata5P : dictGet? st5.synthetic_data P = some rowsP := by
    rw [hst5, (foldl_processTable_other schema n l3 st4 P hPl3).2]
    exact hdata4P
  -- The primary-key values of P in the final dataset are exactly 1..n.
  have hpkvals : pkColumnValues (generateData schema n tables g) P pkP = pkList n := by
    rw [pkColumnValues, hfinal, hdata5P, Option.getD_some]
    refine filterMap_of_map_eq_map_some _ rowsP ((List.range' 1 n).map
      (fun k => Value.int (Int.ofNat k))) ?_
    rw [hmap2, List.map_map]
    rfl
  intro r hr v hv
  rw [hfinal, hdata5T, Option.getD_some] at hr
  rw [hpkvals]
  exact hok4 r hr v hv

theorem genRows_split (schema : Schema) (t pk : String) :
    ∀ (a b start : Nat) (st : RowsState),
      genRows schema t pk start (a + b) st =
        genRows schema t pk (start + a) b (genRows schema t pk start a st) := by
  intro a
  induction a with
  | zero => intro b start st; simp [genRows]
  | succ k ih =>
    intro b start st
    obtain ⟨rows, reg, g⟩ := st
    have hshift : k + 1 + b = (k + b) + 1 := by omega
    rw [hshift]
    simp only [genRows]
    rw [ih b (start + 1)]
    have harith : start + 1 + k = start + (k + 1) := by omega
    rw [harith]

/-- C5: for a freshly processed table with n generated rows, the primary
keys issued are the consecutive integers 1..n in row order, the registry
ends up holding exactly 1..n, after any k rows the registry already holds
1..k, and the full n-row run factors through that k-row state (so each
issued value is registered before the next row is generated). -/
theorem C5_sequential_pk_reservation (schema : Schema) (n : Nat) (st : GenState)
    (t : String) (m : TableMeta) (pk : String) (rest : List String)
    (hm : dictGet? schema t = some m) (hpks : m.primary_keys = pk :: rest)
    (hany : (m.columns.any fun col => decide (col.name = pk)) = true)
    (hfresh : dictGet? st.id_registry t = none) :
    dictGet? (processTable schema n st t).id_registry t = some (pkList n) ∧
      (∃ rows, dictGet? (processTable schema n st t).synthetic_data t = some rows ∧
        rows.map (fun r => dictGet? r pk) =
          (List.range' 1 n).map (fun k => some (Value.int (Int.ofNat k)))) ∧
      (∀ k : Nat,
        dictGet? (genRows schema t pk 1 k
          ([], dictInsert st.id_registry t [], st.rng)).2.1 t = some (pkList k)) ∧
      (∀ k : Nat, k ≤ n →
        genRows schema t pk 1 n ([], dictInsert st.id_registry t [], st.rng) =
          genRows schema t pk (1 + k) (n - k)
            (genRows schema t pk 1 k ([], dictInsert st.id_registry t [], st.rng))) := by
  have hc : pk ∈ m.primary_keys := by rw [hpks]; exact List.mem_cons_self _ _
  obtain ⟨h1, h2⟩ := processTable_fresh schema n st t m pk rest hm hpks hany hfresh
  refine ⟨h1, h2, ?_, ?_⟩
  · intro k
    have hreg0 : dictGet? (dictInsert st.id_registry t []) t = some [] :=
      dictGet?_insert_self _ _ _
    have := (genRows_main schema t pk m hm hc hany k 1 []
      (dictInsert st.id_registry t []) st.rng [] hreg0).1
    simpa [pkList_eq_pkListFrom] using this
  · intro k hk
    have hkn : n = k + (n - k) := by omega
    conv_lhs => rw [hkn]
    exact genRows_split schema t pk k (n - k) 1 _

/-- C6 is false as stated: for a composite primary key all of whose
columns are foreign keys, the components are not generated by foreign-key
sampling — the primary-key branch wins and assigns the record id.  Here
the registry of the referenced table holds only the value 7, yet the key
component "a" receives the record id 1, which is not a registry member,
and no used-tuple set or retry exists in _generate_record. -/
theorem C6_counterexample :
    dictGet? (generateRecord ceSchemaC6 "t" 1 [("p", [Value.int 7])]
        ⟨fun _ => 0, 0⟩).1 "a" = some (Value.int 1) ∧
      dictGet? ([("p", [Value.int 7])] : Registry) "p" = some [Value.int 7] ∧
      Value.int 1 ∉ [Value.int 7] := by
  refine ⟨by decide, by decide, by decide⟩

/-- C6 (amended): primary-key handling takes precedence over foreign-key
handling in _generate_record, so every column of a composite primary key
(foreign key or not) is assigned the sequential record id; consequently
the key tuples of rows with distinct record ids are always distinct (no
used-tuple set or retry is involved). -/
theorem C6_composite_pk_assigned_record_id (schema : Schema) (t : String)
    (m : TableMeta) (reg : Registry) (g : RNG) (i : Int)
    (hm : dictGet? schema t = some m) :
    (∀ c ∈ m.primary_keys, (m.columns.any fun col => decide (col.name = c)) = true →
      dictGet? (generateRecord schema t i reg g).1 c = some (Value.int i)) ∧
    (∀ (c0 : String) (rest : List String), m.primary_keys = c0 :: rest →
      (m.columns.any fun col => decide (col.name = c0)) = true →
      ∀ (j : Int) (g2 : RNG), i ≠ j →
        m.primary_keys.map (fun c => dictGet? (generateRecord schema t i reg g).1 c) ≠
          m.primary_keys.map (fun c => dictGet? (generateRecord schema t j reg g2).1 c)) := by
  constructor
  · intro c hc hany
    exact generateRecord_pk schema t m i reg g c hm hc hany
  · intro c0 rest hpks hany j g2 hij heq
    have hc0 : c0 ∈ m.primary_keys := by rw [hpks]; exact List.mem_cons_self _ _
    have hi := generateRecord_pk schema t m i reg g c0 hm hc0 hany
    have hj := generateRecord_pk schema t m j reg g2 c0 hm hc0 hany
    rw [hpks, List.map_cons, List.map_cons, hi, hj] at heq
    obtain ⟨hhead, -⟩ := (List.cons.injEq _ _ _ _).mp heq
    injection hhead with hval
    injection hval with hij2
    exact hij hij2

/-- C4: when the referenced table's registry entry is absent or empty at
generation time, the foreign-key column still receives a value, namely a
fallback integer in the range 1..10; _generate_record is a total function
so row generation never blocks or aborts in this situation. -/
theorem C4_fk_fallback_bounded (schema : Schema) (t : String) (m : TableMeta)
    (recordId : Int) (reg : Registry) (g : RNG) (c : String) (fk : FKey)
    (hm : dictGet? schema t = some m) (hcpks : c ∉ m.primary_keys)
    (hfk : firstMatchingFK m.foreign_keys c = some fk)
    (hany : (m.columns.any fun col => decide (col.name = c)) = true)
    (hempty : (dictGet? reg fk.referred_table).getD [] = []) :
    ∃ k : Int, dictGet? (generateRecord schema t recordId reg g).1 c =
      some (Value.int k) ∧ 1 ≤ k ∧ k ≤ 10 := by
  obtain ⟨v, hv, hadm⟩ :=
    generateRecord_fk_some schema t m recordId reg g c fk hm hcpks hfk hany
  rcases hr : dictGet? reg fk.referred_table with _ | l
  · rw [fkAdmissible_none reg fk v hr] at hadm
    obtain ⟨k, hk, h1, h2⟩ := hadm
    exact ⟨k, by rw [hv, hk], h1, h2⟩
  · rw [hr] at hempty
    simp only [Option.getD_some] at hempty
    rw [fkAdmissible_some reg fk v l hr, hempty] at hadm
    simp only [List.isEmpty_nil, if_true] at hadm
    obtain ⟨k, hk, h1, h2⟩ := hadm
    exact ⟨k, by rw [hv, hk], h1, h2⟩

/-- C9: a foreign-key column is assigned either a registered value of the
referenced table or a 1..10 fallback integer, irrespective of the
column's nullable flag (which _generate_record never consults on this
path); in particular it is never assigned null as long as the registry
holds no nulls. -/
theorem C9_fk_never_null (schema : Schema) (t : String) (m : TableMeta)
    (recordId : Int) (reg : Registry) (g : RNG) (c : String) (fk : FKey)
    (hm : dictGet? schema t = some m) (hcpks : c ∉ m.primary_keys)
    (hfk : firstMatchingFK m.foreign_keys c = some fk)
    (hany : (m.columns.any fun col => decide (col.name = c)) = true) :
    ∃ v, dictGet? (generateRecord schema t recordId reg g).1 c = some v ∧
      ((∃ l, dictGet? reg fk.referred_table = some l ∧ l ≠ [] ∧ v ∈ l) ∨
        (∃ k : Int, v = Value.int k ∧ 1 ≤ k ∧ k ≤ 10)) ∧
      ((∀ x ∈ (dictGet? reg fk.referred_table).getD [], x ≠ Value.null) →
        v ≠ Value.null) := by
  obtain ⟨v, hv, hadm⟩ :=
    generateRecord_fk_some schema t m recordId reg g c fk hm hcpks hfk hany
  refine ⟨v, hv, ?_⟩
  rcases hr : dictGet? reg fk.referred_table with _ | l
  · rw [fkAdmissible_none reg fk v hr] at hadm
    refine ⟨Or.inr hadm, ?_⟩
    intro _ hnull
    obtain ⟨k, hk, _, _⟩ := hadm
    rw [hk] at hnull
    cases hnull
  · rw [fkAdmissible_some reg fk v l hr] at hadm
    by_cases hemp : l.isEmpty
    · rw [if_pos hemp] at hadm
      refine ⟨Or.inr hadm, ?_⟩
      intro _ hnull
      obtain ⟨k, hk, _, _⟩ := hadm
      rw [hk] at hnull
      cases hnull
    · rw [if_neg hemp] at hadm
      refine ⟨Or.inl ⟨l, rfl, by simpa [List.isEmpty_iff] using hemp, hadm⟩, ?_⟩
      intro hno hnull
      exact (hno v (by simp [hr, hadm])) hnull

/-- C7 is false as stated: generating two rows of a table with an email
column consumes exactly one draw per email and accepts a duplicate email
on the spot — the RNG cursor ends at 2 (one draw per row, so no retry
draw ever happened), even though the very next draw would have produced a
fresh email.  No per-column used-value set exists in
_generate_value_for_column. -/
theorem C7_counterexample :
    (genRows ceSchemaC7 "u" "id" 1 2 ([], [("u", [])], ⟨ceStreamC7, 0⟩)).1 =
        [[("id", Value.int 1), ("email", Value.str "email#0")],
         [("id", Value.int 2), ("email", Value.str "email#0")]] ∧
      (genRows ceSchemaC7 "u" "id" 1 2 ([], [("u", [])], ⟨ceStreamC7, 0⟩)).2.2.idx = 2 ∧
      (fakerString "email" ⟨ceStreamC7, 2⟩).1 = Value.str "email#7" ∧
      Value.str "email#0" ≠ Value.str "email#7" := by
  refine ⟨by decide, by decide, by decide, by decide⟩

/-- C7 (amended): for a non-nullable text column whose lowercased name
contains "email", value generation is a single Faker call: it consumes
exactly one draw, the result is fully determined by that draw, and no
used-value set is consulted (the dispatcher has no access to previously
generated values), so duplicates are accepted without any retry. -/
theorem C7_email_single_call (colName colType : String) (g : RNG)
    (hvar : strContains colType "VARCHAR" = true)
    (he : strContains (strLower colName) "email" = true) :
    genValueForColumn colName colType false g =
      (Value.str ("email#" ++ toString g.draw), RNG.mk g.stream (g.idx + 1)) := by
  have hfold : ("email" ++ "#" : String) = "email#" := rfl
  simp [genValueForColumn, genValueCore, hvar, he, fakerString, RNG.advance, hfold]

/-- Branch reduction for an address2-style column: after the keyword
dispatch, the generator rolls boolean(30) and returns either a secondary
address or null (src/data_generator.py lines 66-67). -/
theorem genValueCore_address2 (colName colType : String) (g : RNG)
    (hvar : strContains colType "VARCHAR" = true)
    (ha2 : strContains (strLower colName) "address2" = true)
    (hne : strContains (strLower colName) "email" = false)
    (hnf : strContains (strLower colName) "first_name" = false)
    (hnl : strContains (strLower colName) "last_name" = false) :
    genValueCore colName colType g =
      if g.draw % 100 < 30 then fakerString "secondary_address" g.advance
      else (Value.null, g.advance) := by
  have haddr : ¬ strLower colName = "address" := by
    intro h
    rw [h] at ha2
    exact absurd ha2 (by decide)
  simp only [genValueCore, hvar, Bool.true_or, if_true, hne, hnf, hnl,
    Bool.false_eq_true, if_false, haddr, ha2, fakerBoolean]
  by_cases hroll : g.draw % 100 < 30
  · simp [hroll]
  · simp [hroll]

/-- C10: for a non-key text column whose name contains "address2" (and
matches none of the earlier keyword branches), the generated value is
either a secondary-address string or null, for either value of the
nullable flag; in particular a NOT NULL address2 column can still
receive null (witnessed by any stream whose roll fails the 30% check). -/
theorem C10_address2_secondary_or_null (colName colType : String)
    (hvar : strContains colType "VARCHAR" = true)
    (ha2 : strContains (strLower colName) "address2" = true)
    (hne : strContains (strLower colName) "email" = false)
    (hnf : strContains (strLower colName) "first_name" = false)
    (hnl : strContains (strLower colName) "last_name" = false) :
    (∀ (isNullable : Bool) (g : RNG),
      (∃ n : Nat, (genValueForColumn colName colType isNullable g).1 =
        Value.str ("secondary_address#" ++ toString n)) ∨
      (genValueForColumn colName colType isNullable g).1 = Value.null) ∧
    (∃ g0 : RNG, (genValueForColumn colName colType false g0).1 = Value.null) := by
  have hcore : ∀ g : RNG,
      (∃ n : Nat, (genValueCore colName colType g).1 =
        Value.str ("secondary_address#" ++ toString n)) ∨
      (genValueCore colName colType g).1 = Value.null := by
    intro g
    rw [genValueCore_address2 colName colType g hvar ha2 hne hnf hnl]
    by_cases hroll : g.draw % 100 < 30
    · rw [if_pos hroll]
      exact Or.inl ⟨g.advance.draw, rfl⟩
    · rw [if_neg hroll]
      exact Or.inr rfl
  constructor
  · intro isNullable g
    cases isNullable with
    | false => exact hcore g
    | true =>
      simp only [genValueForColumn, fakerBoolean]
      by_cases hroll : g.draw % 100 < 10
      · simp [hroll]
      · simp only [hroll, decide_eq_true_eq, if_neg, decide_False,
          Bool.false_eq_true, if_false]
        exact hcore g.advance
  · refine ⟨⟨fun _ => 50, 0⟩, ?_⟩
    have h := genValueCore_address2 colName colType ⟨fun _ => 50, 0⟩ hvar ha2 hne hnf hnl
    simp only [genValueForColumn]
    rw [h]
    simp [RNG.draw]

theorem charsLe_total : ∀ as bs : List Char, charsLe as bs = true ∨ charsLe bs as = true := by
  intro as
  induction as with
  | nil => intro bs; exact Or.inl rfl
  | cons a as ih =>
    intro bs
    cases bs with
    | nil => exact Or.inr rfl
    | cons b bs =>
      rcases Nat.lt_trichotomy a.toNat b.toNat with h | h | h
      · left
        simp [charsLe, h]
      · rcases ih bs with h2 | h2
        · left
          simp [charsLe, h, Nat.lt_irrefl, h2]
        · right
          simp [charsLe, h.symm, Nat.lt_irrefl, h2]
      · right
        simp [charsLe, h]

theorem charsLe_trans : ∀ as bs cs : List Char,
    charsLe as bs = true → charsLe bs cs = true → charsLe as cs = true := by
  intro as
  induction as with
  | nil => intro bs cs _ _; rfl
  | cons a as ih =>
    intro bs cs h1 h2
    cases bs with
    | nil => simp [charsLe] at h1
    | cons b bs =>
      cases cs with
      | nil => simp [charsLe] at h2
      | cons c cs =>
        simp only [charsLe] at h1 h2 ⊢
        by_cases hab : a.toNat < b.toNat
        · by_cases hbc : b.toNat < c.toNat
          · simp [Nat.lt_trans hab hbc]
          · simp only [hbc, if_false] at h2
            by_cases hbc2 : b.toNat = c.toNat
            · simp [hbc2 ▸ hab]
            · simp [hbc2] at h2
        · simp only [hab, if_false] at h1
          by_cases hab2 : a.toNat = b.toNat
          · simp only [hab2, if_true] at h1
            by_cases hbc : b.toNat < c.toNat
            · simp [hab2 ▸ hbc]
            · simp only [hbc, if_false] at h2
              by_cases hbc2 : b.toNat = c.toNat
              · have hac : a.toNat = c.toNat := hab2.trans hbc2
                simp only [hbc2, if_true] at h2
                simp [hac, Nat.lt_irrefl, ih bs cs h1 h2]
              · simp [hbc2] at h2
          · simp [hab2] at h1

theorem mainSortLE_total (fkMap : String → List (String × String)) (a b : String) :
    mainSortLE fkMap a b ∨ mainSortLE fkMap b a := by
  rcases Nat.lt_trichotomy (calculateForeignKeyCount fkMap a)
      (calculateForeignKeyCount fkMap b) with h | h | h
  · exact Or.inl (Or.inl h)
  · rcases charsLe_total a.data b.data with h2 | h2
    · exact Or.inl (Or.inr ⟨h, h2⟩)
    · exact Or.inr (Or.inr ⟨h.symm, h2⟩)
  · exact Or.inr (Or.inl h)

theorem mainSortLE_trans (fkMap : String → List (String × String)) (a b c : String) :
    mainSortLE fkMap a b → mainSortLE fkMap b c → mainSortLE fkMap a c := by
  intro h1 h2
  rcases h1 with h1 | ⟨h1e, h1s⟩ <;> rcases h2 with h2 | ⟨h2e, h2s⟩
  · exact Or.inl (h1.trans h2)
  · exact Or.inl (h2e ▸ h1)
  · exact Or.inl (h1e ▸ h2)
  · exact Or.inr ⟨h1e.trans h2e, charsLe_trans a.data b.data c.data h1s h2s⟩

theorem pyInsert_perm {α : Type} (le : α → α → Bool) (x : α) :
    ∀ l : List α, (pyInsert le x l).Perm (x :: l) := by
  intro l
  induction l with
  | nil => exact List.Perm.refl _
  | cons y ys ih =>
    by_cases h : le x y
    · simp [pyInsert, h]
    · simp only [pyInsert, h, Bool.false_eq_true, if_false]
      exact (ih.cons y).trans (List.Perm.swap x y ys)

theorem pySorted_perm {α : Type} (le : α → α → Bool) :
    ∀ l : List α, (pySorted le l).Perm l := by
  intro l
  induction l with
  | nil => exact List.Perm.refl _
  | cons x xs ih => exact (pyInsert_perm le x (pySorted le xs)).trans (ih.cons x)

theorem pyInsert_sorted {α : Type} (le : α → α → Bool)
    (htot : ∀ a b, le a b = true ∨ le b a = true)
    (htr : ∀ a b c, le a b = true → le b c = true → le a c = true) (x : α) :
    ∀ l : List α, l.Sorted (fun a b => le a b = true) →
      (pyInsert le x l).Sorted (fun a b => le a b = true) := by
  intro l
  induction l with
  | nil => intro _; simp [pyInsert]
  | cons y ys ih =>
    intro hs
    obtain ⟨hy, hys⟩ := List.sorted_cons.mp hs
    by_cases h : le x y
    · simp only [pyInsert, h, if_true]
      refine List.sorted_cons.mpr ⟨?_, hs⟩
      intro b hb
      rcases List.mem_cons.mp hb with hb | hb
      · exact hb ▸ h
      · exact htr x y b h (hy b hb)
    · simp only [pyInsert, h, Bool.false_eq_true, if_false]
      refine List.sorted_cons.mpr ⟨?_, ih hys⟩
      intro b hb
      have hmem := (pyInsert_perm le x ys).mem_iff.mp hb
      rcases List.mem_cons.mp hmem with hb2 | hb2
      · rcases htot x y with h2 | h2
        · exact absurd h2 h
        · exact hb2 ▸ h2
      · exact hy b hb2

theorem pySorted_sorted {α : Type} (le : α → α → Bool)
    (htot : ∀ a b, le a b = true ∨ le b a = true)
    (htr : ∀ a b c, le a b = true → le b c = true → le a c = true) :
    ∀ l : List α, (pySorted le l).Sorted (fun a b => le a b = true) := by
  intro l
  induction l with
  | nil => simp [pySorted]
  | cons x xs ih => exact pyInsert_sorted le htot htr x _ ih

/-- C2 is false as stated for DataGenerator._order_tables_by_dependencies:
with two tables of equal (zero) foreign-key count, the resolver returns
them in input order, not in ascending lexicographic order — the sort of
run_synthesis would have produced ["a", "b"]. -/
theorem C2_counterexample :
    orderTablesByDependencies ["b", "a"] = ["b", "a"] ∧
      mainSortedTables (fun _ => []) ["b", "a"] = ["a", "b"] ∧
      ¬ mainSortLE (fun _ => []) "b" "a" := by
  refine ⟨by decide, by decide, by decide⟩

/-- C2 (amended): the table ordering computed by run_synthesis in
src/main.py is a permutation of the input tables sorted ascending by
(foreign-key count, table name) — zero-FK tables first, ties broken
lexicographically, deterministically; the DataGenerator's own
_order_tables_by_dependencies does not sort by foreign-key count (see the
counterexample) but instead puts its hard-coded priority tables first. -/
theorem C2_main_sort_sorted_and_perm (fkMap : String → List (String × String))
    (allTables : List String) :
    (mainSortedTables fkMap allTables).Perm allTables ∧
      (mainSortedTables fkMap allTables).Sorted (mainSortLE fkMap) := by
  constructor
  · exact pySorted_perm _ allTables
  · have hs := pySorted_sorted (fun a b => decide (mainSortLE fkMap a b))
      (fun a b => by
        rcases mainSortLE_total fkMap a b with h | h
        · exact Or.inl (decide_eq_true h)
        · exact Or.inr (decide_eq_true h))
      (fun a b c h1 h2 => decide_eq_true
        (mainSortLE_trans fkMap a b c (of_decide_eq_true h1) (of_decide_eq_true h2)))
      allTables
    exact hs.imp (fun h => of_decide_eq_true h)

/-- The predicate deciding whether one foreign-key check is an orphan. -/
def isOrphanCheck (chk : Value × List Value) : Bool := decide (chk.1 ∉ chk.2)

theorem countOrphansGo_eq_countP (pkMap : List (String × List (String × List Value)))
    (row : Record) (fk : FKey) :
    ∀ (cs : List String) (i : Nat),
      countOrphansGo pkMap row fk i cs =
        (fkChecksGo pkMap row fk i cs).countP isOrphanCheck := by
  intro cs
  induction cs with
  | nil => intro i; rfl
  | cons c rest ih =>
    intro i
    simp only [countOrphansGo, fkChecksGo]
    rcases hv : dictGet? row c with _ | v
    · simp [ih]
    · rw [List.countP_append, ih]
      by_cases hmem : v ∈ parentPks pkMap fk i
      · simp [List.countP_cons, isOrphanCheck, hmem]
      · simp [List.countP_cons, isOrphanCheck, hmem]
        try omega

theorem foldl_add_sum {α : Type} (f : α → Nat) :
    ∀ (l : List α) (n : Nat), l.foldl (fun a x => a + f x) n = n + (l.map f).sum := by
  intro l
  induction l with
  | nil => intro n; simp
  | cons x xs ih =>
    intro n
    simp only [List.foldl_cons, List.map_cons, List.sum_cons, ih]
    omega

theorem orphanCount_row_eq (pkMap : List (String × List (String × List Value)))
    (fks : List FKey) (row : Record) (n : Nat) :
    fks.foldl (fun acc fk =>
        acc + countOrphansGo pkMap row fk 0 fk.constrained_columns) n =
      n + ((fks.map (fun fk =>
        fkChecksGo pkMap row fk 0 fk.constrained_columns)).flatten).countP isOrphanCheck := by
  rw [foldl_add_sum, List.countP_flatten, List.map_map]
  have hfun : (fun fk => countOrphansGo pkMap row fk 0 fk.constrained_columns) =
      (List.countP isOrphanCheck ∘ fun fk =>
        fkChecksGo pkMap row fk 0 fk.constrained_columns) := by
    funext fk
    exact countOrphansGo_eq_countP pkMap row fk fk.constrained_columns 0
  rw [hfun]

theorem orphanCount_rows_eq (pkMap : List (String × List (String × List Value)))
    (fks : List FKey) :
    ∀ (rows : List Record) (n : Nat),
      rows.foldl (fun acc row => fks.foldl (fun acc fk =>
          acc + countOrphansGo pkMap row fk 0 fk.constrained_columns) acc) n =
        n + ((rows.map (fun row => ((fks.map (fun fk =>
          fkChecksGo pkMap row fk 0 fk.constrained_columns)).flatten))).flatten).countP
            isOrphanCheck := by
  intro rows
  induction rows with
  | nil => intro n; simp
  | cons row rest ih =>
    intro n
    simp only [List.foldl_cons, List.map_cons, List.flatten_cons, List.countP_append]
    rw [ih, orphanCount_row_eq]
    omega

theorem orphanCount_tables_eq (pkMap : List (String × List (String × List Value)))
    (fkf : String → List FKey) :
    ∀ (l : SynthData) (n : Nat),
      l.foldl (fun acc tr => tr.2.foldl (fun acc row => (fkf tr.1).foldl
          (fun acc fk => acc + countOrphansGo pkMap row fk 0 fk.constrained_columns)
          acc) acc) n =
        n + ((l.map (fun tr => (tr.2.map (fun row => ((fkf tr.1).map (fun fk =>
          fkChecksGo pkMap row fk 0 fk.constrained_columns)).flatten)).flatten)).flatten).countP
            isOrphanCheck := by
  intro l
  induction l with
  | nil => intro n; simp
  | cons tr rest ih =>
    intro n
    simp only [List.foldl_cons, List.map_cons, List.flatten_cons, List.countP_append]
    rw [ih, orphanCount_rows_eq]
    omega

theorem orphanCount_eq_countP (insp : Inspector) (synth : SynthData) :
    orphanCount insp synth = (fkChecks insp synth).countP isOrphanCheck := by
  rw [orphanCount, fkChecks]
  simpa using orphanCount_tables_eq (structuredPkMap insp synth)
    insp.foreign_keys synth 0

theorem failLine_ne_passLine (s : String) :
    ("FAIL - " ++ s) ≠ "PASS - All foreign keys valid" := by
  intro h
  have hd := congrArg String.data h
  rw [String.data_append] at hd
  have h1 : "FAIL - ".data = 'F' :: "AIL - ".data := rfl
  have h2 : "PASS - All foreign keys valid".data =
      'P' :: "ASS - All foreign keys valid".data := rfl
  rw [h1, h2, List.cons_append] at hd
  have := (List.cons.injEq _ _ _ _).mp hd
  exact absurd this.1 (by decide)

/-- C3: the referential-integrity metric counts exactly one orphan for
every foreign-key check (value of a schema-declared constrained column
present in a synthetic row) whose value is missing from the referenced
table's synthetic primary-key set, and the printed verdict is the PASS
line if and only if that orphan counter is zero. -/
theorem C3_integrity_verdict_iff_no_orphans (insp : Inspector) (synth : SynthData) :
    orphanCount insp synth = (fkChecks insp synth).countP isOrphanCheck ∧
      (integrityPass insp synth = true ↔
        ∀ chk ∈ fkChecks insp synth, chk.1 ∈ chk.2) ∧
      (integrityVerdict insp synth = "PASS - All foreign keys valid" ↔
        orphanCount insp synth = 0) := by
  have hcount := orphanCount_eq_countP insp synth
  refine ⟨hcount, ?_, ?_⟩
  · rw [integrityPass, Nat.beq_eq_true_eq, hcount, List.countP_eq_zero]
    constructor
    · intro h chk hchk
      have := h chk hchk
      simpa [isOrphanCheck] using this
    · intro h chk hchk
      simp [isOrphanCheck, h chk hchk]
  · constructor
    · intro h
      by_contra hn
      have hpass : integrityPass insp synth = false := by
        simp [integrityPass, hn]
      rw [integrityVerdict, hpass] at h
      simp only [Bool.false_eq_true, if_false] at h
      rw [String.append_assoc] at h
      exact failLine_ne_passLine _ h
    · intro h
      have hpass : integrityPass insp synth = true := by
        simp [integrityPass, h]
      rw [integrityVerdict, hpass]
      simp

/-- C8: synthesis is a pure function of the schema snapshot, the
records-per-table count, the requested tables, and the seeded random
stream — two runs with equal inputs produce identical generator states,
including the same table ordering and within-table row order (the
synthetic_data lists are equal as ordered lists). -/
theorem C8_determinism (schema : Schema) (recordsPerTable : Nat)
    (tables : List String) (g1 g2 : RNG) (h : g1 = g2) :
    generateData schema recordsPerTable tables g1 =
      generateData schema recordsPerTable tables g2 := by
  rw [h]

/-- C1 is false as stated: in a run that generates only table "t", whose
column "cid" is a declared foreign key to the never-generated table "p",
the fallback writes the value 1 into "t"."cid" while the synthetic
primary-key values of "p" are the empty set — an orphan. -/
theorem C1_counterexample :
    ((dictGet? (generateData ceSchemaC1 1 ["t"] ⟨fun _ => 0, 0⟩).synthetic_data
        "t").getD []).map (fun r => dictGet? r "cid") = [some (Value.int 1)] ∧
      pkColumnValues (generateData ceSchemaC1 1 ["t"] ⟨fun _ => 0, 0⟩) "p" "pid" = [] ∧
      Value.int 1 ∉ ([] : List Value) := by
  refine ⟨by decide, by decide, by decide⟩

/-- Witness for C1 at the customer/rental scenario with one row each:
the sampled rental.customer_id value 1 is a generated customer key. -/
theorem C1_witness :
    Value.int 1 ∈ pkColumnValues (generateData wSchemaC1 1 ["customer", "rental"]
      ⟨fun _ => 0, 0⟩) "customer" "customer_id" :=
  C1_referential_integrity_of_generated_parent wSchemaC1 1 ["customer", "rental"]
    ⟨fun _ => 0, 0⟩ "customer" "rental" "customer_id" [] [] []
    ⟨[⟨"customer_id", "INTEGER", false⟩], ["customer_id"], []⟩
    ⟨[⟨"rental_id", "INTEGER", false⟩, ⟨"customer_id", "INTEGER", false⟩],
      ["rental_id"], [⟨["customer_id"], "customer", ["customer_id"]⟩]⟩
    "customer_id" [] "rental_id" []
    ⟨["customer_id"], "customer", ["customer_id"]⟩
    (by decide) (by decide) (by decide) (by decide) (by decide) (by decide)
    (by decide) (by decide) (by decide) (by decide)
    [("rental_id", Value.int 1), ("customer_id", Value.int 1)]
    (by decide) (Value.int 1) (by decide)

/-- Witness for C4: with an empty registry the foreign-key column "cid"
receives a fallback integer in 1..10. -/
theorem C4_witness :
    ∃ k : Int, dictGet? (generateRecord ceSchemaC1 "t" 1 [] ⟨fun _ => 0, 0⟩).1 "cid" =
      some (Value.int k) ∧ 1 ≤ k ∧ k ≤ 10 :=
  C4_fk_fallback_bounded ceSchemaC1 "t"
    ⟨[⟨"tid", "INTEGER", false⟩, ⟨"cid", "INTEGER", false⟩], ["tid"],
      [⟨["cid"], "p", ["pid"]⟩]⟩
    1 [] ⟨fun _ => 0, 0⟩ "cid" ⟨["cid"], "p", ["pid"]⟩
    (by decide) (by decide) (by decide) (by decide) (by decide)

/-- Witness for C5: processing "customer" for two rows from a fresh state
reserves exactly the keys 1, 2. -/
theorem C5_witness :
    dictGet? (processTable wSchemaC1 2 ⟨[], [], ⟨fun _ => 0, 0⟩⟩
      "customer").id_registry "customer" = some (pkList 2) :=
  (C5_sequential_pk_reservation wSchemaC1 2 ⟨[], [], ⟨fun _ => 0, 0⟩⟩ "customer"
    ⟨[⟨"customer_id", "INTEGER", false⟩], ["customer_id"], []⟩ "customer_id" []
    (by decide) (by decide) (by decide) (by decide)).1

/-- Witness for C6 (amended): the composite-key column "a" receives the
record id 3. -/
theorem C6_witness :
    dictGet? (generateRecord ceSchemaC6 "t" 3 [] ⟨fun _ => 0, 0⟩).1 "a" =
      some (Value.int 3) :=
  (C6_composite_pk_assigned_record_id ceSchemaC6 "t"
    ⟨[⟨"a", "INTEGER", false⟩, ⟨"b", "INTEGER", false⟩], ["a", "b"],
      [⟨["a"], "p", ["pid"]⟩, ⟨["b"], "p", ["pid"]⟩]⟩
    [] ⟨fun _ => 0, 0⟩ 3 (by decide)).1 "a" (by decide) (by decide)

/-- Witness for C7 (amended): a concrete email generation consumes one
draw and is determined by it. -/
theorem C7_witness :
    genValueForColumn "email" "VARCHAR(50)" false ⟨fun _ => 5, 0⟩ =
      (Value.str ("email#" ++ toString 5), RNG.mk (fun _ => 5) 1) :=
  C7_email_single_call "email" "VARCHAR(50)" ⟨fun _ => 5, 0⟩ (by decide) (by decide)

/-- Witness for C8: a concrete pair of equal-seed runs coincide. -/
theorem C8_witness :
    generateData wSchemaC1 1 ["customer"] ⟨fun _ => 0, 0⟩ =
      generateData wSchemaC1 1 ["customer"] ⟨fun _ => 0, 0⟩ :=
  C8_determinism wSchemaC1 1 ["customer"] ⟨fun _ => 0, 0⟩ ⟨fun _ => 0, 0⟩ rfl

/-- Witness for C9: with a nonempty registry for "p", the foreign-key
column receives a registered (non-null) value or a bounded fallback. -/
theorem C9_witness :
    ∃ v, dictGet? (generateRecord ceSchemaC1 "t" 1 [("p", [Value.int 4])]
        ⟨fun _ => 0, 0⟩).1 "cid" = some v ∧
      ((∃ l, dictGet? ([("p", [Value.int 4])] : Registry) "p" = some l ∧
          l ≠ [] ∧ v ∈ l) ∨
        (∃ k : Int, v = Value.int k ∧ 1 ≤ k ∧ k ≤ 10)) ∧
      ((∀ x ∈ (dictGet? ([("p", [Value.int 4])] : Registry) "p").getD [],
          x ≠ Value.null) → v ≠ Value.null) :=
  C9_fk_never_null ceSchemaC1 "t"
    ⟨[⟨"tid", "INTEGER", false⟩, ⟨"cid", "INTEGER", false⟩], ["tid"],
      [⟨["cid"], "p", ["pid"]⟩]⟩
    1 [("p", [Value.int 4])] ⟨fun _ => 0, 0⟩ "cid" ⟨["cid"], "p", ["pid"]⟩
    (by decide) (by decide) (by decide) (by decide)

/-- Witness for C10: a NOT NULL address2 column can receive null. -/
theorem C10_witness :
    ∃ g0 : RNG, (genValueForColumn "address2" "VARCHAR(50)" false g0).1 = Value.null :=
  (C10_address2_secondary_or_null "address2" "VARCHAR(50)" (by decide) (by decide)
    (by decide) (by decide) (by decide)).2

end PgSynth
